import Mathlib

/-!
Verification of the flowref citation engine: the DOI recognizer
(src/core/doi.ts) and the hand-written citation style formatters
(src/core/formatters/apa.ts, mla.ts, chicago.ts, ieee.ts, vancouver.ts,
src/core/util.ts, src/core/intext.ts), shallowly embedded over
`List Char` / `String`.  JavaScript strings are modelled as Lean
strings (one `Char` per UTF-16 unit of the inputs considered); the
case mappings of `toLowerCase`/`toUpperCase` are modelled by
`Char.toLower`/`Char.toUpper` (they agree on ASCII); regular
expressions are unfolded into their deterministic leftmost-match
scanning semantics.
-/

namespace FlowRef

/-- JavaScript whitespace class: the character set matched by the regex
class `\s` (and removed by `String.prototype.trim`). -/
def isJsWs (c : Char) : Bool :=
  c = ' ' || c = '\t' || c = '\n' || c = '\r' ||
  c.val = 0x0b || c.val = 0x0c || c.val = 0xa0 || c.val = 0x1680 ||
  (0x2000 ≤ c.val && c.val ≤ 0x200a) ||
  c.val = 0x2028 || c.val = 0x2029 || c.val = 0x202f || c.val = 0x205f ||
  c.val = 0x3000 || c.val = 0xfeff

/-- JavaScript line terminators, the characters NOT matched by the regex
metacharacter for an arbitrary character (the dot) when the s-flag is off. -/
def isLineTerm (c : Char) : Bool :=
  c = '\n' || c = '\r' || c.val = 0x2028 || c.val = 0x2029

/-- JavaScript word-character class (the regex class of letters, digits and
underscore), used by word boundaries and the aggressive DOI pattern. -/
def isWordChar (c : Char) : Bool :=
  c.isUpper || c.isLower || c.isDigit || c = '_'

/-- Case-insensitive comparison of two characters, modelling the i-flag of
the source's regexes. -/
def ciEq (a b : Char) : Bool := a.toLower = b.toLower

/-- Does `l` start with the literal pattern `pat`, case-insensitively? -/
def ciStartsWith : List Char → List Char → Bool
  | [], _ => true
  | _ :: _, [] => false
  | p :: ps, c :: cs => ciEq p c && ciStartsWith ps cs

/-- Does `l` start with the literal pattern `pat` (exact comparison)? -/
def listStartsWith : List Char → List Char → Bool
  | [], _ => true
  | _ :: _, [] => false
  | p :: ps, c :: cs => (p = c) && listStartsWith ps cs

/-- Does `pat` occur case-insensitively anywhere in the list? -/
def containsCI (pat : List Char) : List Char → Bool
  | [] => ciStartsWith pat []
  | c :: rest => ciStartsWith pat (c :: rest) || containsCI pat rest

/-- Does `pat` occur (exact comparison) anywhere in the list? -/
def containsStr (pat : List Char) : List Char → Bool
  | [] => listStartsWith pat []
  | c :: rest => listStartsWith pat (c :: rest) || containsStr pat rest

/-- Model of `String.prototype.trim`: drop JavaScript whitespace from both ends. -/
def jsTrim (l : List Char) : List Char :=
  ((l.dropWhile isJsWs).reverse.dropWhile isJsWs).reverse

/-- The DOI-shaped capture group of the URL extraction regex in
`normalizeDOI` (doi.ts line 42): literal `10.`, then 4 to 9 digits, then a
slash, then a nonempty greedy run of characters that are not whitespace,
`?` or `#`. -/
def urlDoiCapture : List Char → Option (List Char)
  | '1' :: '0' :: '.' :: rest =>
    let ds := rest.takeWhile Char.isDigit
    if 4 ≤ ds.length ∧ ds.length ≤ 9 then
      match rest.drop ds.length with
      | '/' :: after =>
        let run := after.takeWhile (fun c => !(isJsWs c || c = '?' || c.val = 35))
        if run = [] then none else some ('1' :: '0' :: '.' :: (ds ++ '/' :: run))
      | _ => none
    else none
  | _ => none

/-- One attempt of the URL extraction regex at a fixed position: either the
literal `doi.org/` or a `/doi/` path segment optionally followed by
`full/` or `abs/`, immediately followed by the DOI capture group.  The
alternation and option orders mirror the regex backtracking order. -/
def urlDoiTryAt (l : List Char) : Option (List Char) :=
  if ciStartsWith "doi.org/".data l then urlDoiCapture (l.drop 8)
  else if ciStartsWith "/doi/".data l then
    let t := l.drop 5
    if ciStartsWith "full/".data t then
      match urlDoiCapture (t.drop 5) with
      | some m => some m
      | none => urlDoiCapture t
    else if ciStartsWith "abs/".data t then
      match urlDoiCapture (t.drop 4) with
      | some m => some m
      | none => urlDoiCapture t
    else urlDoiCapture t
  else none

/-- Leftmost match of the URL-embedded-DOI regex of `normalizeDOI`
(doi.ts line 42), returning the captured DOI. -/
def urlDoiExtract : List Char → Option (List Char)
  | [] => none
  | c :: rest =>
    match urlDoiTryAt (c :: rest) with
    | some m => some m
    | none => urlDoiExtract rest

/-- Strip a leading `http(s)://(dx.)?doi.org/` URL scheme (doi.ts line 47). -/
def stripDoiOrgUrl (l : List Char) : List Char :=
  let afterScheme : Option (List Char) :=
    if ciStartsWith "https://".data l then some (l.drop 8)
    else if ciStartsWith "http://".data l then some (l.drop 7)
    else none
  match afterScheme with
  | none => l
  | some t =>
    let t2 := if ciStartsWith "dx.".data t then t.drop 3 else t
    if ciStartsWith "doi.org/".data t2 then t2.drop 8 else l

/-- Strip a leading `doi:` label and following whitespace (doi.ts line 48). -/
def stripDoiColon (l : List Char) : List Char :=
  if ciStartsWith "doi:".data l then (l.drop 4).dropWhile isJsWs else l

/-- Remove everything from the first case-insensitive occurrence of `www.`
up to the next line terminator (doi.ts line 57: replacing the leftmost
match of `www.` followed by a greedy run of arbitrary characters). -/
def wwwStrip : List Char → List Char
  | [] => []
  | c :: rest =>
    if ciStartsWith "www.".data (c :: rest) then
      ((c :: rest).drop 4).dropWhile (fun x => !isLineTerm x)
    else c :: wwwStrip rest

/-- Remove everything from the first case-insensitive occurrence of
`http://` or `https://` up to the next line terminator (doi.ts line 58). -/
def httpStrip : List Char → List Char
  | [] => []
  | c :: rest =>
    if ciStartsWith "https://".data (c :: rest) then
      ((c :: rest).drop 8).dropWhile (fun x => !isLineTerm x)
    else if ciStartsWith "http://".data (c :: rest) then
      ((c :: rest).drop 7).dropWhile (fun x => !isLineTerm x)
    else c :: httpStrip rest

/-- Trailing punctuation stripped by `normalizeDOI` (doi.ts line 61). -/
def trailPunct (c : Char) : Bool :=
  c = '.' || c = ',' || c = ';' || c = ')' || c = ']' || c.val = 125 || c = '>'

/-- Leading punctuation stripped by `normalizeDOI` (doi.ts line 64). -/
def leadPunct (c : Char) : Bool :=
  c = '.' || c = ',' || c = ';' || c = '(' || c = '[' || c.val = 123 || c = '<'

/-- Strip a maximal run of trailing punctuation. -/
def dropTrailPunct (l : List Char) : List Char :=
  ((l.reverse).dropWhile trailPunct).reverse

/-- Strip a maximal run of leading punctuation. -/
def dropLeadPunct (l : List Char) : List Char :=
  l.dropWhile leadPunct

/-- The final validation regex of `normalizeDOI` (doi.ts line 69): anchored
at the start, literal `10.`, 4 to 9 digits, a slash, then at least five
characters other than line terminators. -/
def validDOIFormat (l : List Char) : Bool :=
  listStartsWith "10.".data l &&
  (let rest := l.drop 3
   let ds := rest.takeWhile Char.isDigit
   decide (4 ≤ ds.length) && decide (ds.length ≤ 9) &&
   listStartsWith "/".data (rest.drop ds.length) &&
   decide (5 ≤ ((rest.drop (ds.length + 1)).takeWhile (fun c => !isLineTerm c)).length))

/-- The cleaning pipeline of `normalizeDOI` (doi.ts lines 38 to 64), in
source order: trim, URL extraction or scheme/label stripping, whitespace
removal, concatenated-URL stripping, trailing and leading punctuation
stripping. -/
def cleanDOI (s : List Char) : List Char :=
  let n0 := jsTrim s
  let n1 :=
    match urlDoiExtract n0 with
    | some cap => cap
    | none => stripDoiColon (stripDoiOrgUrl n0)
  let n2 := n1.filter (fun c => !isJsWs c)
  let n3 := httpStrip (wwwStrip n2)
  dropLeadPunct (dropTrailPunct n3)

/-- Function `normalizeDOI` from doi.ts (lines 34 to 74), on character lists:
falsiness check, the cleaning pipeline, then the final validation. -/
def normalizeDOIList (s : List Char) : Option (List Char) :=
  if s = [] then none
  else if validDOIFormat (cleanDOI s) = true ∧ 15 ≤ (cleanDOI s).length then
    some (cleanDOI s)
  else none

/-- Function `normalizeDOI` on strings: `null` is modelled by `none`. -/
def normalizeDOI (s : String) : Option String :=
  (normalizeDOIList s.data).map String.mk

/-- A match of the strict DOI pattern (doi.ts line 25) at a fixed position:
literal `10.`, 4 to 9 digits, a slash, then a nonempty greedy run of
characters that are not whitespace, double quote, single quote, `<` or
`>`. -/
def strictDoiMatch : List Char → Option (List Char)
  | '1' :: '0' :: '.' :: rest =>
    let ds := rest.takeWhile Char.isDigit
    if 4 ≤ ds.length ∧ ds.length ≤ 9 then
      match rest.drop ds.length with
      | '/' :: after =>
        let run := after.takeWhile
          (fun c => !(isJsWs c || c.val = 34 || c.val = 39 || c = '<' || c = '>'))
        if run = [] then none else some ('1' :: '0' :: '.' :: (ds ++ '/' :: run))
      | _ => none
    else none
  | _ => none

/-- Global scan of the strict DOI pattern with its leading word boundary;
`prevWord` records whether the character before the current position is a
word character (false at the start of the text).  After a match the scan
resumes at the match end, as `matchAll` does. -/
def strictScan (fuel : Nat) (prevWord : Bool) (l : List Char) : List (List Char) :=
  match fuel, l with
  | 0, _ => []
  | _, [] => []
  | Nat.succ f, c :: rest =>
    if !prevWord then
      match strictDoiMatch (c :: rest) with
      | some m => m :: strictScan f (isWordChar m.getLast!) ((c :: rest).drop m.length)
      | none => strictScan f (isWordChar c) rest
    else strictScan f (isWordChar c) rest

/-- Character class of the aggressive DOI pattern (doi.ts line 129): word
characters, hyphen, dot, parentheses, slash and whitespace. -/
def isAggClass (c : Char) : Bool :=
  isWordChar c || c = '-' || c = '.' || c = '(' || c = ')' || c = '/' || isJsWs c

/-- Core of the aggressive DOI pattern: `10.`, 4 to 9 digits, a slash, then
a greedy run of 3 to 100 class characters. -/
def aggDoiCore : List Char → Option (List Char)
  | '1' :: '0' :: '.' :: rest =>
    let ds := rest.takeWhile Char.isDigit
    if 4 ≤ ds.length ∧ ds.length ≤ 9 then
      match rest.drop ds.length with
      | '/' :: after =>
        let run := (after.takeWhile isAggClass).take 100
        if 3 ≤ run.length then some ('1' :: '0' :: '.' :: (ds ++ '/' :: run)) else none
      | _ => none
    else none
  | _ => none

/-- A match of the aggressive DOI pattern at a fixed position, including the
optional leading `doi:` label with trailing whitespace (part of the whole
match, as in the source, which normalizes `match[0]`). -/
def aggDoiMatch (l : List Char) : Option (List Char) :=
  if ciStartsWith "doi:".data l then
    let afterColon := l.drop 4
    let ws := afterColon.takeWhile isJsWs
    match aggDoiCore (afterColon.drop ws.length) with
    | some m => some (l.take 4 ++ ws ++ m)
    | none => aggDoiCore l
  else aggDoiCore l

/-- Global scan of the aggressive DOI pattern. -/
def aggScan (fuel : Nat) (l : List Char) : List (List Char) :=
  match fuel, l with
  | 0, _ => []
  | _, [] => []
  | Nat.succ f, c :: rest =>
    match aggDoiMatch (c :: rest) with
    | some m => m :: aggScan f ((c :: rest).drop m.length)
    | none => aggScan f rest

/-- Push step for the first pass of `detectDOIsFromText` (doi.ts lines 118
to 124): normalize the match, push unless already present, with an exact
(case-sensitive) membership test. -/
def pass1Step (acc : List (List Char)) (m : List Char) : List (List Char) :=
  match normalizeDOIList m with
  | none => acc
  | some d => if d ∈ acc then acc else acc ++ [d]

/-- Push step for the second pass of `detectDOIsFromText` (doi.ts lines 130
to 138): normalize the match, push unless an element equal up to case is
already present. -/
def pass2Step (acc : List (List Char)) (m : List Char) : List (List Char) :=
  match normalizeDOIList m with
  | none => acc
  | some d =>
    if acc.any (fun e => e.map Char.toLower = d.map Char.toLower) then acc
    else acc ++ [d]

/-- Function `detectDOIsFromText` from doi.ts (lines 114 to 141), on character
lists: a strict pass, then an aggressive pass over the same text. -/
def detectDOIsFromTextList (t : List Char) : List (List Char) :=
  let l1 := (strictScan (t.length + 1) false t).foldl pass1Step []
  (aggScan (t.length + 1) t).foldl pass2Step l1

/-- Function `detectDOIsFromText` on strings. -/
def detectDOIsFromText (t : String) : List String :=
  (detectDOIsFromTextList t.data).map String.mk

/-- The stream of candidate DOIs in scan order: the successfully
normalized matches of the strict pass followed by those of the aggressive
pass.  The list built by `detectDOIsFromText` only ever appends the next
new candidate, so it is an order-preserving subsequence of this stream:
this is the formal sense in which first-seen order is preserved. -/
def doiCandidatesList (t : List Char) : List (List Char) :=
  (strictScan (t.length + 1) false t).filterMap normalizeDOIList ++
  (aggScan (t.length + 1) t).filterMap normalizeDOIList

/-- The candidate stream on strings. -/
def doiCandidates (t : String) : List String :=
  (doiCandidatesList t.data).map String.mk

/-! ### Data model of the formatters

An author record (types.ts): the three optional string fields; a JavaScript
`undefined` or empty string is modelled by `""` (both are falsy, and the
formatters only test truthiness). -/

structure Author where
  given : String := ""
  family : String := ""
  full : String := ""
deriving Repr, DecidableEq, Inhabited

/-- The canonical citation metadata record (types.ts).  Optional string
fields model both `undefined` and `""` as `""`; `containerType` is kept as
a string since the formatters compare it to the literal `"book"`. -/
structure CitationMetadata where
  doi : String := ""
  title : String := ""
  authors : List Author := []
  year : String := ""
  journal : String := ""
  volume : String := ""
  issue : String := ""
  pages : String := ""
  url : String := ""
  publisher : String := ""
  containerType : String := ""
  isEditedWork : Bool := false
deriving Repr, Inhabited

/-- JavaScript array indexing `l[i]` (in the sources always applied at an
index that exists). -/
def jsAt (l : List Author) (i : Nat) : Author := l.getD i ⟨"", "", ""⟩

/-- Model of `Array.prototype.join(sep)`: interleave a separator between parts. -/
def joinSep (sep : String) : List String → String
  | [] => ""
  | [p] => p
  | p :: q :: rest => p ++ sep ++ joinSep sep (q :: rest)

/-- Join on character lists, for `split(...).join(" ")` style code. -/
def joinSepL (sep : List Char) : List (List Char) → List Char
  | [] => []
  | [w] => w
  | w :: v :: rest => w ++ sep ++ joinSepL sep (v :: rest)

/-- Faithful model of `String.prototype.split` on a whitespace-run regex,
accumulator-based: maximal whitespace runs are separators, and an empty
token is produced before a leading separator, after a trailing separator,
and for the empty string, exactly as in JavaScript.  The boolean records
whether the previous character was part of a separator run. -/
def jsSplitWsAux : List Char → Bool → List Char → List (List Char)
  | cur, _, [] => [cur.reverse]
  | cur, inWs, c :: rest =>
    if isJsWs c then
      (if inWs then jsSplitWsAux cur true rest
       else cur.reverse :: jsSplitWsAux [] true rest)
    else jsSplitWsAux (c :: cur) false rest

/-- Split on whitespace runs, keeping the boundary empty tokens that
JavaScript `split` produces. -/
def jsSplitWs (l : List Char) : List (List Char) := jsSplitWsAux [] false l

/-- Tokenisation by `split` on a whitespace run, accumulator-based.  Empty
tokens (which JavaScript can produce at the string's ends) are dropped;
this variant is used only where that is observationally faithful: the
sentence/title casers trim first, `formatInitials` filters out the empty
results the empty tokens map to, and the Vancouver initials join with the
empty separator, erasing the empty tokens' empty contributions. -/
def wordsWsAux : List Char → List Char → List (List Char)
  | cur, [] => if cur = [] then [] else [cur.reverse]
  | cur, c :: rest =>
    if isJsWs c then
      (if cur = [] then wordsWsAux [] rest else cur.reverse :: wordsWsAux [] rest)
    else wordsWsAux (c :: cur) rest

/-- Split a character list into whitespace-separated words. -/
def wordsWs (l : List Char) : List (List Char) := wordsWsAux [] l

/-- First character of a token (tokens from `wordsWs` are nonempty). -/
def tokenHead (w : List Char) : Char :=
  match w with
  | [] => ' '
  | c :: _ => c

/-- Capitalise a word: first character upper-cased, rest lower-cased
(`word.charAt(0).toUpperCase() + word.slice(1).toLowerCase()`). -/
def capWord (w : List Char) : List Char :=
  match w with
  | [] => []
  | c :: rest => c.toUpper :: rest.map Char.toLower

/-- The acronym test of `toSentenceCase` (util.ts line 172): length at
least 2, equal to its own upper-casing, and all characters in `A`-`Z`. -/
def isAcronym (w : List Char) : Bool :=
  decide (2 ≤ w.length) && (w == w.map Char.toUpper) && w.all Char.isUpper

/-- Function `toSentenceCase` from util.ts (lines 157 to 186). -/
def toSentenceCase (s : String) : String :=
  if s = "" then ""
  else
    let t := jsTrim s.data
    if t = [] then ""
    else
      let ws := wordsWs t
      let res := ws.enum.map (fun iw =>
        if isAcronym iw.2 then iw.2
        else if iw.1 = 0 then capWord iw.2
        else iw.2.map Char.toLower)
      String.mk (joinSepL [' '] res)

/-- The minor words kept lowercase by `toTitleCase` (util.ts line 204). -/
def minorWords : List (List Char) :=
  ["a", "an", "and", "as", "at", "but", "by", "for", "in",
   "nor", "of", "on", "or", "the", "to", "up", "yet"].map String.data

/-- Function `toTitleCase` from util.ts (lines 192 to 228). -/
def toTitleCase (s : String) : String :=
  if s = "" then ""
  else
    let t := jsTrim s.data
    if t = [] then ""
    else
      let ws := wordsWs t
      let n := ws.length
      let res := ws.enum.map (fun iw =>
        let lw := iw.2.map Char.toLower
        if iw.1 = 0 ∨ iw.1 = n - 1 then capWord iw.2
        else if lw ∈ minorWords then lw
        else capWord iw.2)
      String.mk (joinSepL [' '] res)

/-- Function `formatInitials` from util.ts (lines 234 to 247): split the given name
on whitespace, strip periods, keep the upper-cased first letter followed by
a period, drop empty results, join with spaces. -/
def formatInitials (g : String) : String :=
  if g = "" then ""
  else
    let toks := (wordsWs g.data).map (fun w =>
      let cleaned := w.filter (fun c => !(c = '.'))
      match cleaned with
      | [] => ([] : List Char)
      | c :: _ => [c.toUpper, '.'])
    String.mk (joinSepL [' '] (toks.filter (fun t => t ≠ [])))

/-! ### APA formatter (apa.ts) -/

/-- The per-author rendering of `formatAuthorsAPA` (apa.ts lines 21 to
32): `Family, I. I.` with fallbacks. -/
def formatAuthorAPA1 (a : Author) : String :=
  if a.family ≠ "" ∧ a.given ≠ "" then a.family ++ ", " ++ formatInitials a.given
  else if a.family ≠ "" then a.family
  else if a.full ≠ "" then a.full
  else "[Unknown]"

/-- Function `formatAuthorsAPA` from apa.ts (lines 16 to 49). -/
def formatAuthorsAPA (authors : List Author) : String :=
  if authors.length = 0 then "[No author]"
  else if authors.length = 1 then formatAuthorAPA1 (jsAt authors 0)
  else if authors.length = 2 then
    formatAuthorAPA1 (jsAt authors 0) ++ ", & " ++ formatAuthorAPA1 (jsAt authors 1)
  else if authors.length ≤ 20 then
    joinSep ", " ((authors.map formatAuthorAPA1).dropLast) ++ ", & " ++
      (authors.map formatAuthorAPA1).getD (authors.length - 1) ""
  else
    joinSep ", " ((authors.take 19).map formatAuthorAPA1) ++ ", ... " ++
      formatAuthorAPA1 (jsAt authors (authors.length - 1))

/-- Model of the `title.endsWith(".")` test used by the APA reference builder. -/
def jsEndsWithDot (s : String) : Bool := s.data.getLast? == some '.'

/-- The sentence-punctuation test of apa.ts lines 86 and 98: append a
period unless the title already ends in `.`, `!` or `?`. -/
def addDotIfNeeded (s : String) : String :=
  match s.data.getLast? with
  | some c => if c = '.' || c = '!' || c = '?' then s else s ++ "."
  | none => s ++ "."

/-- Function `formatReferenceAPA` from apa.ts (lines 57 to 136).  Parts are pushed
in source order and joined with a single space. -/
def formatReferenceAPA (meta : CitationMetadata) : String :=
  let authorPart0 := formatAuthorsAPA meta.authors
  let authorPart :=
    if meta.isEditedWork then
      let edLabel := if meta.authors.length = 1 then " (Ed.)." else " (Eds.)."
      let ap := if jsEndsWithDot authorPart0 then authorPart0 else authorPart0 ++ "."
      String.mk ap.data.dropLast ++ edLabel
    else authorPart0
  let yearPart := if meta.year ≠ "" then "(" ++ meta.year ++ ")." else "(n.d.)."
  let titleBody : List String :=
    if meta.containerType = "book" then
      ["<em>" ++ addDotIfNeeded (toSentenceCase meta.title) ++ "</em>"] ++
      (if meta.publisher ≠ "" then [meta.publisher ++ "."] else [])
    else
      [addDotIfNeeded (toSentenceCase meta.title)] ++
      (if meta.journal ≠ "" then
        ["<em>" ++ toTitleCase meta.journal ++ "</em>" ++
         (if meta.volume ≠ "" then ", <em>" ++ meta.volume ++ "</em>" else "") ++
         (if meta.issue ≠ "" then "(" ++ meta.issue ++ ")" else "") ++
         (if meta.pages ≠ "" then ", " ++ meta.pages else "") ++ "."]
       else [])
  let idPart : List String :=
    if meta.doi ≠ "" then ["https://doi.org/" ++ meta.doi]
    else if meta.url ≠ "" then [meta.url]
    else []
  joinSep " " ([authorPart, yearPart] ++ titleBody ++ idPart)

/-- The in-text author-name fallback `family || full || "Unknown"`. -/
def nameOf (a : Author) : String :=
  if a.family ≠ "" then a.family else if a.full ≠ "" then a.full else "Unknown"

/-- Function `formatInTextAPAParenthetical` from apa.ts (lines 145 to 163). -/
def formatInTextAPAParenthetical (authors : List Author) (year : String) : String :=
  if authors.length = 0 then
    if year ≠ "" then "([No author], " ++ year ++ ")" else "([No author], n.d.)"
  else
    let yearStr := if year ≠ "" then year else "n.d."
    if authors.length = 1 then "(" ++ nameOf (jsAt authors 0) ++ ", " ++ yearStr ++ ")"
    else if authors.length = 2 then
      "(" ++ nameOf (jsAt authors 0) ++ " & " ++ nameOf (jsAt authors 1) ++ ", " ++ yearStr ++ ")"
    else "(" ++ nameOf (jsAt authors 0) ++ " et al., " ++ yearStr ++ ")"

/-- Function `formatInTextAPANarrative` from apa.ts (lines 172 to 190). -/
def formatInTextAPANarrative (authors : List Author) (year : String) : String :=
  if authors.length = 0 then
    if year ≠ "" then "[No author] (" ++ year ++ ")" else "[No author] (n.d.)"
  else
    let yearStr := if year ≠ "" then year else "n.d."
    if authors.length = 1 then nameOf (jsAt authors 0) ++ " (" ++ yearStr ++ ")"
    else if authors.length = 2 then
      nameOf (jsAt authors 0) ++ " and " ++ nameOf (jsAt authors 1) ++ " (" ++ yearStr ++ ")"
    else nameOf (jsAt authors 0) ++ " et al. (" ++ yearStr ++ ")"

/-! ### MLA formatter (mla.ts) -/

/-- First-author rendering of `formatAuthorsMLA` (`Family, Given`). -/
def fmtFirstMLA (a : Author) : String :=
  if a.family ≠ "" ∧ a.given ≠ "" then a.family ++ ", " ++ a.given
  else if a.family ≠ "" then a.family
  else if a.full ≠ "" then a.full
  else "[Unknown]"

/-- Other-author rendering of `formatAuthorsMLA` (`Given Family`). -/
def fmtOtherMLA (a : Author) : String :=
  if a.given ≠ "" ∧ a.family ≠ "" then a.given ++ " " ++ a.family
  else if a.family ≠ "" then a.family
  else if a.full ≠ "" then a.full
  else "[Unknown]"

/-- Function `formatAuthorsMLA` from mla.ts (lines 12 to 49). -/
def formatAuthorsMLA (authors : List Author) : String :=
  if authors.length = 0 then "[No author]"
  else if authors.length = 1 then fmtFirstMLA (jsAt authors 0)
  else if authors.length = 2 then
    fmtFirstMLA (jsAt authors 0) ++ ", and " ++ fmtOtherMLA (jsAt authors 1)
  else fmtFirstMLA (jsAt authors 0) ++ ", et al"

/-- Function `formatReferenceMLA` from mla.ts (lines 57 to 118). -/
def formatReferenceMLA (meta : CitationMetadata) : String :=
  let authorPart := formatAuthorsMLA meta.authors ++
    (if meta.isEditedWork then
      (if meta.authors.length = 1 then ", editor" else ", editors")
     else "")
  let title := String.mk (jsTrim meta.title.data)
  let titlePart :=
    if meta.containerType = "book" then "<em>" ++ title ++ "</em>."
    else "\"" ++ title ++ ".\""
  let containerPart : List String :=
    if meta.journal ≠ "" then
      ["<em>" ++ meta.journal ++ "</em>" ++
       (if meta.volume ≠ "" then ", vol. " ++ meta.volume else "") ++
       (if meta.issue ≠ "" then ", no. " ++ meta.issue else "") ++
       (if meta.year ≠ "" then ", " ++ meta.year else "") ++
       (if meta.pages ≠ "" then ", pp. " ++ meta.pages else "") ++ "."]
    else if meta.containerType = "book" ∧ meta.publisher ≠ "" then
      [meta.publisher ++ ", " ++ (if meta.year ≠ "" then meta.year else "n.d.") ++ "."]
    else []
  let idPart : List String :=
    if meta.doi ≠ "" then ["https://doi.org/" ++ meta.doi ++ "."]
    else if meta.url ≠ "" then [meta.url ++ "."]
    else []
  joinSep " " ([authorPart ++ ".", titlePart] ++ containerPart ++ idPart)

/-! ### Chicago formatter (chicago.ts, recovered source) -/

/-- First-author rendering of `formatAuthorsChicago` (`Family, Given`). -/
def fmtFirstChicago (a : Author) : String :=
  if a.family ≠ "" ∧ a.given ≠ "" then a.family ++ ", " ++ a.given
  else if a.family ≠ "" then a.family
  else if a.full ≠ "" then a.full
  else "[Unknown]"

/-- Other-author rendering of `formatAuthorsChicago` (`Given Family`). -/
def fmtOtherChicago (a : Author) : String :=
  if a.given ≠ "" ∧ a.family ≠ "" then a.given ++ " " ++ a.family
  else if a.family ≠ "" then a.family
  else if a.full ≠ "" then a.full
  else "[Unknown]"

/-- Function `formatAuthorsChicago` from chicago.ts (lines 12 to 57). -/
def formatAuthorsChicago (authors : List Author) : String :=
  if authors.length = 0 then "[No author]"
  else if authors.length = 1 then fmtFirstChicago (jsAt authors 0)
  else if authors.length = 2 then
    fmtFirstChicago (jsAt authors 0) ++ ", and " ++ fmtOtherChicago (jsAt authors 1)
  else if authors.length ≤ 10 then
    fmtFirstChicago (jsAt authors 0) ++ ", " ++
      joinSep ", " (((authors.drop 1).dropLast).map fmtOtherChicago) ++ ", and " ++
      fmtOtherChicago (jsAt authors (authors.length - 1))
  else
    joinSep ", "
      (fmtFirstChicago (jsAt authors 0) :: ((authors.drop 1).take 6).map fmtOtherChicago)
      ++ ", et al"

/-- Function `formatReferenceChicago` from chicago.ts (lines 65 to 130). -/
def formatReferenceChicago (meta : CitationMetadata) : String :=
  let authorPart := formatAuthorsChicago meta.authors ++
    (if meta.isEditedWork then
      (if meta.authors.length = 1 then ", ed" else ", eds")
     else "")
  let title := String.mk (jsTrim meta.title.data)
  let titlePart :=
    if meta.containerType = "book" then "<em>" ++ title ++ "</em>."
    else "\"" ++ title ++ ".\""
  let containerPart : List String :=
    if meta.journal ≠ "" then
      ["<em>" ++ meta.journal ++ "</em>" ++
       (if meta.volume ≠ "" then " " ++ meta.volume else "") ++
       (if meta.issue ≠ "" then ", no. " ++ meta.issue else "") ++
       (if meta.year ≠ "" then " (" ++ meta.year ++ ")" else "") ++
       (if meta.pages ≠ "" then ": " ++ meta.pages else "") ++ "."]
    else if meta.containerType = "book" then
      (if meta.publisher ≠ "" ∧ meta.year ≠ "" then [meta.publisher ++ ", " ++ meta.year ++ "."]
       else if meta.publisher ≠ "" then [meta.publisher ++ "."]
       else [])
    else []
  let idPart : List String :=
    if meta.doi ≠ "" then ["https://doi.org/" ++ meta.doi ++ "."]
    else if meta.url ≠ "" then [meta.url ++ "."]
    else []
  joinSep " " ([authorPart ++ ".", titlePart] ++ containerPart ++ idPart)

/-! ### IEEE formatter (ieee.ts) -/

/-- The per-author rendering of `formatAuthorsIEEE` (ieee.ts lines 17 to
32): space-separated dotted initials before the family name.  The split
keeps JavaScript's boundary empty tokens, which `charAt(0)` maps to the
empty string, so a whitespace-padded given name contributes a bare `.`
initial exactly as the source does. -/
def fmtIEEEAuthor (a : Author) : String :=
  if a.given ≠ "" ∧ a.family ≠ "" then
    (joinSepL [' ']
      ((jsSplitWs a.given.data).map (fun w =>
        match w with
        | [] => ['.']
        | c :: _ => [c.toUpper, '.']))).asString
      ++ " " ++ a.family
  else if a.family ≠ "" then a.family
  else if a.full ≠ "" then a.full
  else "[Unknown]"

/-- Function `formatAuthorsIEEE` from ieee.ts (lines 12 to 47). -/
def formatAuthorsIEEE (authors : List Author) : String :=
  if authors.length = 0 then "[No author]"
  else if authors.length = 1 then fmtIEEEAuthor (jsAt authors 0)
  else if authors.length = 2 then
    fmtIEEEAuthor (jsAt authors 0) ++ " and " ++ fmtIEEEAuthor (jsAt authors 1)
  else if authors.length ≤ 6 then
    joinSep ", " ((authors.dropLast).map fmtIEEEAuthor) ++ ", and " ++
      fmtIEEEAuthor (jsAt authors (authors.length - 1))
  else joinSep ", " ((authors.take 6).map fmtIEEEAuthor) ++ ", et al."

/-- Function `formatReferenceIEEE` from ieee.ts (lines 55 to 122). -/
def formatReferenceIEEE (meta : CitationMetadata) (refNumber : Nat) : String :=
  let authorPart := formatAuthorsIEEE meta.authors ++
    (if meta.isEditedWork then
      (if meta.authors.length = 1 then ", Ed." else ", Eds.")
     else "")
  let title := String.mk (jsTrim meta.title.data)
  let titlePart :=
    if meta.containerType = "book" then "<em>" ++ title ++ "</em>."
    else "\"" ++ title ++ ",\""
  let containerPart : List String :=
    if meta.journal ≠ "" then
      ["<em>" ++ meta.journal ++ "</em>" ++
       (if meta.volume ≠ "" then ", vol. " ++ meta.volume else "") ++
       (if meta.issue ≠ "" then ", no. " ++ meta.issue else "") ++
       (if meta.pages ≠ "" then ", pp. " ++ meta.pages else "") ++
       (if meta.year ≠ "" then ", " ++ meta.year else "") ++ ","]
    else if meta.containerType = "book" then
      (if meta.publisher ≠ "" ∧ meta.year ≠ "" then [meta.publisher ++ ", " ++ meta.year ++ "."]
       else if meta.publisher ≠ "" then [meta.publisher ++ "."]
       else [])
    else []
  let idPart : List String :=
    if meta.doi ≠ "" then ["doi: " ++ meta.doi ++ "."]
    else if meta.url ≠ "" then ["[Online]. Available: " ++ meta.url]
    else []
  joinSep " " (["[" ++ toString refNumber ++ "]", authorPart ++ ","] ++ [titlePart]
    ++ containerPart ++ idPart)

/-! ### Vancouver formatter (vancouver.ts) -/

/-- The per-author rendering of `formatAuthorsVancouver` (vancouver.ts
lines 17 to 32): family name, then bare concatenated initials. -/
def fmtVanAuthor (a : Author) : String :=
  if a.family ≠ "" ∧ a.given ≠ "" then
    a.family ++ " " ++ ((wordsWs a.given.data).map (fun w => (tokenHead w).toUpper)).asString
  else if a.family ≠ "" then a.family
  else if a.full ≠ "" then a.full
  else "[Unknown]"

/-- Function `formatAuthorsVancouver` from vancouver.ts (lines 12 to 41). -/
def formatAuthorsVancouver (authors : List Author) : String :=
  if authors.length = 0 then "[No author]"
  else if authors.length ≤ 6 then joinSep ", " (authors.map fmtVanAuthor)
  else joinSep ", " ((authors.take 6).map fmtVanAuthor) ++ ", et al"

/-- Function `formatReferenceVancouver` from vancouver.ts (lines 49 to 110). -/
def formatReferenceVancouver (meta : CitationMetadata) (refNumber : Nat) : String :=
  let authorPart := formatAuthorsVancouver meta.authors ++
    (if meta.isEditedWork then ", editors" else "")
  let title := String.mk (jsTrim meta.title.data)
  let containerPart : List String :=
    if meta.journal ≠ "" then
      [meta.journal ++
       (if meta.year ≠ "" then ". " ++ meta.year else "") ++
       (if meta.volume ≠ "" then ";" ++ meta.volume else "") ++
       (if meta.issue ≠ "" then "(" ++ meta.issue ++ ")" else "") ++
       (if meta.pages ≠ "" then ":" ++ meta.pages else "") ++ "."]
    else if meta.containerType = "book" then
      (if meta.publisher ≠ "" ∧ meta.year ≠ "" then [meta.publisher ++ "; " ++ meta.year ++ "."]
       else if meta.publisher ≠ "" then [meta.publisher ++ "."]
       else [])
    else []
  let idPart : List String :=
    if meta.doi ≠ "" then ["doi: " ++ meta.doi]
    else if meta.url ≠ "" then ["Available from: " ++ meta.url]
    else []
  joinSep " " ([toString refNumber ++ ".", authorPart ++ ".", title ++ "."]
    ++ containerPart ++ idPart)

/-! ### In-text dispatcher (intext.ts) -/

/-- The in-text variant union type of intext.ts. -/
inductive InTextVariant where
  | parenthetical
  | narrative
deriving Repr, DecidableEq

/-- Function `formatInTextAPA` from intext.ts (lines 16 to 26). -/
def formatInTextAPA (authors : List Author) (year : String)
    (variant : InTextVariant) : String :=
  match variant with
  | .narrative => formatInTextAPANarrative authors year
  | _ => formatInTextAPAParenthetical authors year

/-- The five-style union type of `formatInText`. -/
inductive Style where
  | apa
  | mla
  | chicago
  | vancouver
  | ieee
deriving Repr, DecidableEq

/-- Function `formatInText` from intext.ts (lines 93 to 106): the switch handles
only the APA case and defaults to APA for every other style. -/
def formatInText (style : Style) (authors : List Author) (year : String)
    (variant : InTextVariant) : String :=
  match style with
  | .apa => formatInTextAPA authors year variant
  | _ => formatInTextAPA authors year variant

/-- Precondition of claim C3, formalising "d matches 10\.\d{4,9}/.\x7b5,\x7d
with length >= 15 and contains no extraneous characters (no whitespace, no
URL prefix, no leading/trailing punctuation)": the anchored validation
match (which forces the string to start with `10.`, so it has no URL
prefix), the length floor, whitespace-freeness, and clean ends. -/
def plainDOIShape (s : String) : Bool :=
  validDOIFormat s.data && decide (15 ≤ s.length) &&
  s.data.all (fun c => !isJsWs c) &&
  (match s.data.head? with
   | some c => !leadPunct c
   | none => false) &&
  (match s.data.getLast? with
   | some c => !trailPunct c
   | none => false)

/-! ### Helper lemmas -/

theorem data_append (a b : String) : (a ++ b).data = a.data ++ b.data := by
  cases a; cases b; rfl

theorem normalizeDOIList_valid {s l : List Char}
    (h : normalizeDOIList s = some l) : validDOIFormat l = true ∧ 15 ≤ l.length := by
  unfold normalizeDOIList at h
  split at h
  · simp at h
  · split at h
    · injection h with h'
      subst h'
      assumption
    · simp at h

theorem normalizeDOIList_eq_clean {s l : List Char}
    (h : normalizeDOIList s = some l) : cleanDOI s = l := by
  unfold normalizeDOIList at h
  split at h
  · simp at h
  · split at h
    · injection h
    · simp at h

theorem dropWhile_eq_self_of_head {α : Type} {p : α → Bool} {l : List α}
    (h : ∀ c, l.head? = some c → p c = false) : l.dropWhile p = l := by
  cases l with
  | nil => rfl
  | cons a t => simp [List.dropWhile_cons, h a rfl]

theorem dropWhile_eq_nil_of_all {α : Type} {p : α → Bool} {l : List α}
    (h : ∀ c ∈ l, p c = true) : l.dropWhile p = [] := by
  induction l with
  | nil => rfl
  | cons a t ih =>
    rw [List.dropWhile_cons, if_pos (h a (by simp))]
    exact ih (fun c hc => h c (by simp [hc]))

theorem dropWhile_eq_self_of_all {α : Type} {p : α → Bool} {l : List α}
    (h : ∀ c ∈ l, p c = false) : l.dropWhile p = l := by
  cases l with
  | nil => rfl
  | cons a t => simp [List.dropWhile_cons, h a (by simp)]

theorem head?_dropWhile {α : Type} {p : α → Bool} {l : List α} {c : α}
    (h : (l.dropWhile p).head? = some c) : p c = false := by
  induction l with
  | nil => simp [List.dropWhile] at h
  | cons a t ih =>
    rw [List.dropWhile_cons] at h
    by_cases hp : p a = true
    · rw [if_pos hp] at h
      exact ih h
    · rw [if_neg hp] at h
      simp at h
      rw [← h]
      exact Bool.eq_false_iff.mpr hp

theorem noWs_of_trim {l : List Char} (h : ∀ c ∈ l, isJsWs c = false) :
    jsTrim l = l := by
  unfold jsTrim
  rw [dropWhile_eq_self_of_all h]
  rw [dropWhile_eq_self_of_all (fun c hc => h c (List.mem_reverse.mp hc))]
  exact List.reverse_reverse l

theorem filter_eq_self_of_all {α : Type} {p : α → Bool} {l : List α}
    (h : ∀ c ∈ l, p c = true) : l.filter p = l :=
  List.filter_eq_self.mpr h

theorem lineTerm_isWs {c : Char} (h : isLineTerm c = true) : isJsWs c = true := by
  unfold isLineTerm at h
  unfold isJsWs
  rcases Bool.or_eq_true_iff.mp h with h' | h'
  · rcases Bool.or_eq_true_iff.mp h' with h'' | h''
    · rcases Bool.or_eq_true_iff.mp h'' with h3 | h3 <;> simp_all
    · simp_all
  · simp_all

theorem lineTerm_eq_false_of_noWs {c : Char} (h : isJsWs c = false) :
    isLineTerm c = false := by
  by_cases hl : isLineTerm c = true
  · rw [lineTerm_isWs hl] at h
    exact absurd h (by simp)
  · exact Bool.eq_false_iff.mpr hl

/-! Case-insensitive pattern matching lemmas. -/

theorem ciStartsWith_append {p l v : List Char}
    (h : ciStartsWith p l = true) : ciStartsWith p (l ++ v) = true := by
  induction p generalizing l with
  | nil => rfl
  | cons a ps ih =>
    cases l with
    | nil => simp [ciStartsWith] at h
    | cons c cs =>
      rw [List.cons_append]
      unfold ciStartsWith at h ⊢
      rcases Bool.and_eq_true_iff.mp h with ⟨h1, h2⟩
      rw [h1, ih h2]
      rfl

theorem containsCI_append_right {p l v : List Char}
    (h : containsCI p l = true) : containsCI p (l ++ v) = true := by
  induction l with
  | nil =>
    unfold containsCI at h
    cases p with
    | nil =>
      cases v with
      | nil => exact h
      | cons a t => simp [containsCI, ciStartsWith]
    | cons a ps => simp [ciStartsWith] at h
  | cons c cs ih =>
    unfold containsCI at h
    rcases Bool.or_eq_true_iff.mp h with h' | h'
    · rw [List.cons_append]
      unfold containsCI
      rw [show c :: (cs ++ v) = (c :: cs) ++ v from rfl, ciStartsWith_append h']
      rfl
    · rw [List.cons_append]
      unfold containsCI
      rw [ih h', Bool.or_true]

theorem containsCI_append_left {p u l : List Char}
    (h : containsCI p l = true) : containsCI p (u ++ l) = true := by
  induction u with
  | nil => exact h
  | cons a t ih =>
    rw [List.cons_append]
    unfold containsCI
    rw [ih, Bool.or_true]

theorem containsCI_false_of_append_right {p l v : List Char}
    (h : containsCI p (l ++ v) = false) : containsCI p l = false := by
  by_cases h' : containsCI p l = true
  · rw [containsCI_append_right h'] at h
    exact absurd h (by simp)
  · exact Bool.eq_false_iff.mpr h'

theorem containsCI_false_of_append_left {p u l : List Char}
    (h : containsCI p (u ++ l) = false) : containsCI p l = false := by
  by_cases h' : containsCI p l = true
  · rw [containsCI_append_left h'] at h
    exact absurd h (by simp)
  · exact Bool.eq_false_iff.mpr h'

theorem containsCI_cons_false {p : List Char} {c : Char} {r : List Char}
    (h : containsCI p (c :: r) = false) :
    ciStartsWith p (c :: r) = false ∧ containsCI p r = false := by
  unfold containsCI at h
  exact Bool.or_eq_false_iff.mp h

/-! Exact pattern matching lemmas. -/

theorem listStartsWith_append_self (l t : List Char) :
    listStartsWith l (l ++ t) = true := by
  induction l with
  | nil => rfl
  | cons a ps ih => simp [listStartsWith, ih]

theorem listStartsWith_decomp {p l : List Char}
    (h : listStartsWith p l = true) : ∃ t, l = p ++ t := by
  induction p generalizing l with
  | nil => exact ⟨l, rfl⟩
  | cons a ps ih =>
    cases l with
    | nil => simp [listStartsWith] at h
    | cons c cs =>
      unfold listStartsWith at h
      rcases Bool.and_eq_true_iff.mp h with ⟨h1, h2⟩
      rcases ih h2 with ⟨t, ht⟩
      exact ⟨t, by simp [decide_eq_true_iff.mp h1, ht]⟩

theorem listStartsWith_of_eq_append {p l v : List Char}
    (h : listStartsWith p l = true) : listStartsWith p (l ++ v) = true := by
  induction p generalizing l with
  | nil => rfl
  | cons a ps ih =>
    cases l with
    | nil => simp [listStartsWith] at h
    | cons c cs =>
      rw [List.cons_append]
      unfold listStartsWith at h ⊢
      rcases Bool.and_eq_true_iff.mp h with ⟨h1, h2⟩
      rw [Bool.and_eq_true_iff]
      exact ⟨h1, ih h2⟩

theorem containsStr_of_startsWith {p l : List Char}
    (h : listStartsWith p l = true) : containsStr p l = true := by
  cases l with
  | nil =>
    unfold containsStr
    exact h
  | cons c cs =>
    unfold containsStr
    rw [h]
    rfl

theorem containsStr_append_right {p l v : List Char}
    (h : containsStr p l = true) : containsStr p (l ++ v) = true := by
  induction l with
  | nil =>
    unfold containsStr at h
    cases p with
    | nil => exact containsStr_of_startsWith (by rfl)
    | cons a ps => simp [listStartsWith] at h
  | cons c cs ih =>
    unfold containsStr at h
    rcases Bool.or_eq_true_iff.mp h with h' | h'
    · rw [List.cons_append]
      unfold containsStr
      rw [show c :: (cs ++ v) = (c :: cs) ++ v from rfl, listStartsWith_of_eq_append h']
      rfl
    · rw [List.cons_append]
      unfold containsStr
      rw [ih h', Bool.or_true]

theorem containsStr_append_left {p u l : List Char}
    (h : containsStr p l = true) : containsStr p (u ++ l) = true := by
  induction u with
  | nil => exact h
  | cons a t ih =>
    rw [List.cons_append]
    unfold containsStr
    rw [ih, Bool.or_true]

/-! No-op lemmas for the cleaning steps of `normalizeDOI`. -/

theorem urlDoiExtract_eq_none {l : List Char}
    (h1 : containsCI "doi.org/".data l = false)
    (h2 : containsCI "/doi/".data l = false) :
    urlDoiExtract l = none := by
  induction l with
  | nil => rfl
  | cons c rest ih =>
    rcases containsCI_cons_false h1 with ⟨h1a, h1b⟩
    rcases containsCI_cons_false h2 with ⟨h2a, h2b⟩
    unfold urlDoiExtract
    rw [show urlDoiTryAt (c :: rest) = none from by
      unfold urlDoiTryAt
      rw [if_neg (by rw [h1a]; exact Bool.false_ne_true), if_neg (by rw [h2a]; exact Bool.false_ne_true)]]
    exact ih h1b h2b

theorem stripDoiOrgUrl_one (t : List Char) : stripDoiOrgUrl ('1' :: t) = '1' :: t := rfl

theorem stripDoiColon_one (t : List Char) : stripDoiColon ('1' :: t) = '1' :: t := rfl

theorem dropLeadPunct_one (t : List Char) : dropLeadPunct ('1' :: t) = '1' :: t := rfl

theorem wwwStrip_eq_self {l : List Char}
    (h : containsCI "www.".data l = false) : wwwStrip l = l := by
  induction l with
  | nil => rfl
  | cons c rest ih =>
    rcases containsCI_cons_false h with ⟨ha, hb⟩
    unfold wwwStrip
    rw [if_neg (by rw [ha]; exact Bool.false_ne_true)]
    rw [ih hb]

theorem httpStrip_eq_self {l : List Char}
    (h1 : containsCI "https://".data l = false)
    (h2 : containsCI "http://".data l = false) : httpStrip l = l := by
  induction l with
  | nil => rfl
  | cons c rest ih =>
    rcases containsCI_cons_false h1 with ⟨h1a, h1b⟩
    rcases containsCI_cons_false h2 with ⟨h2a, h2b⟩
    unfold httpStrip
    rw [if_neg (by rw [h1a]; exact Bool.false_ne_true),
        if_neg (by rw [h2a]; exact Bool.false_ne_true)]
    rw [ih h1b h2b]

theorem dropTrailPunct_eq_self {l : List Char}
    (h : ∀ c, l.getLast? = some c → trailPunct c = false) :
    dropTrailPunct l = l := by
  unfold dropTrailPunct
  rw [dropWhile_eq_self_of_head (fun c hc => h c (by rw [← List.head?_reverse]; exact hc))]
  exact List.reverse_reverse l

/-! Structure of the stripping steps on whitespace-free inputs: each
becomes a prefix selection, so absence of pattern occurrences is
preserved and no new occurrences can appear. -/

theorem wwwStrip_decomp {l : List Char} (h : ∀ c ∈ l, isJsWs c = false) :
    ∃ v, l = wwwStrip l ++ v := by
  induction l with
  | nil => exact ⟨[], rfl⟩
  | cons c rest ih =>
    unfold wwwStrip
    by_cases hc : ciStartsWith "www.".data (c :: rest) = true
    · rw [if_pos hc]
      rw [dropWhile_eq_nil_of_all (fun x hx => by
        rw [lineTerm_eq_false_of_noWs (h x (List.mem_of_mem_drop hx))]
        rfl)]
      exact ⟨c :: rest, rfl⟩
    · rw [if_neg hc]
      rcases ih (fun x hx => h x (by simp [hx])) with ⟨v, hv⟩
      exact ⟨v, by rw [List.cons_append, ← hv]⟩

theorem httpStrip_decomp {l : List Char} (h : ∀ c ∈ l, isJsWs c = false) :
    ∃ v, l = httpStrip l ++ v := by
  induction l with
  | nil => exact ⟨[], rfl⟩
  | cons c rest ih =>
    unfold httpStrip
    by_cases hc : ciStartsWith "https://".data (c :: rest) = true
    · rw [if_pos hc]
      rw [dropWhile_eq_nil_of_all (fun x hx => by
        rw [lineTerm_eq_false_of_noWs (h x (List.mem_of_mem_drop hx))]
        rfl)]
      exact ⟨c :: rest, rfl⟩
    · rw [if_neg hc]
      by_cases hc2 : ciStartsWith "http://".data (c :: rest) = true
      · rw [if_pos hc2]
        rw [dropWhile_eq_nil_of_all (fun x hx => by
          rw [lineTerm_eq_false_of_noWs (h x (List.mem_of_mem_drop hx))]
          rfl)]
        exact ⟨c :: rest, rfl⟩
      · rw [if_neg hc2]
        rcases ih (fun x hx => h x (by simp [hx])) with ⟨v, hv⟩
        exact ⟨v, by rw [List.cons_append, ← hv]⟩

theorem dropTrailPunct_decomp (l : List Char) :
    ∃ v, l = dropTrailPunct l ++ v := by
  refine ⟨((l.reverse).takeWhile trailPunct).reverse, ?_⟩
  unfold dropTrailPunct
  rw [← List.reverse_append, List.takeWhile_append_dropWhile, List.reverse_reverse]

theorem dropLeadPunct_decomp (l : List Char) :
    ∃ u, l = u ++ dropLeadPunct l :=
  ⟨l.takeWhile leadPunct, (List.takeWhile_append_dropWhile leadPunct l).symm⟩

theorem wwwStrip_no_www {l : List Char} (h : ∀ c ∈ l, isJsWs c = false) :
    containsCI "www.".data (wwwStrip l) = false := by
  induction l with
  | nil => rfl
  | cons c rest ih =>
    have hrestWs : ∀ x ∈ rest, isJsWs x = false := fun x hx => h x (by simp [hx])
    unfold wwwStrip
    by_cases hc : ciStartsWith "www.".data (c :: rest) = true
    · rw [if_pos hc, dropWhile_eq_nil_of_all (fun x hx => by
        rw [lineTerm_eq_false_of_noWs (h x (List.mem_of_mem_drop hx))]
        rfl)]
      rfl
    · rw [if_neg hc]
      unfold containsCI
      rw [Bool.or_eq_false_iff]
      refine ⟨?_, ih hrestWs⟩
      by_cases hh : ciStartsWith "www.".data (c :: wwwStrip rest) = true
      · exfalso
        apply hc
        rcases wwwStrip_decomp hrestWs with ⟨v, hv⟩
        rw [show c :: rest = (c :: wwwStrip rest) ++ v from by rw [List.cons_append, ← hv]]
        exact ciStartsWith_append hh
      · exact Bool.eq_false_iff.mpr hh

theorem httpStrip_no_pat {l : List Char} (pat : List Char)
    (hpat : pat = "https://".data ∨ pat = "http://".data)
    (h : ∀ c ∈ l, isJsWs c = false) :
    containsCI pat (httpStrip l) = false := by
  induction l with
  | nil =>
    rcases hpat with hp | hp <;> rw [hp] <;> rfl
  | cons c rest ih =>
    have hrestWs : ∀ x ∈ rest, isJsWs x = false := fun x hx => h x (by simp [hx])
    unfold httpStrip
    by_cases hc : ciStartsWith "https://".data (c :: rest) = true
    · rw [if_pos hc, dropWhile_eq_nil_of_all (fun x hx => by
        rw [lineTerm_eq_false_of_noWs (h x (List.mem_of_mem_drop hx))]
        rfl)]
      rcases hpat with hp | hp <;> rw [hp] <;> rfl
    · rw [if_neg hc]
      by_cases hc2 : ciStartsWith "http://".data (c :: rest) = true
      · rw [if_pos hc2, dropWhile_eq_nil_of_all (fun x hx => by
          rw [lineTerm_eq_false_of_noWs (h x (List.mem_of_mem_drop hx))]
          rfl)]
        rcases hpat with hp | hp <;> rw [hp] <;> rfl
      · rw [if_neg hc2]
        unfold containsCI
        rw [Bool.or_eq_false_iff]
        refine ⟨?_, ih hrestWs⟩
        by_cases hh : ciStartsWith pat (c :: httpStrip rest) = true
        · exfalso
          rcases httpStrip_decomp hrestWs with ⟨v, hv⟩
          have hext : ciStartsWith pat (c :: rest) = true := by
            rw [show c :: rest = (c :: httpStrip rest) ++ v from by rw [List.cons_append, ← hv]]
            exact ciStartsWith_append hh
          rcases hpat with hp | hp
          · exact hc (hp ▸ hext)
          · exact hc2 (hp ▸ hext)
        · exact Bool.eq_false_iff.mpr hh

theorem dropTrailPunct_getLast {s : List Char} {c : Char}
    (h : (dropTrailPunct s).getLast? = some c) : trailPunct c = false := by
  unfold dropTrailPunct at h
  rw [List.getLast?_reverse] at h
  exact head?_dropWhile h

/-! The output of the cleaning pipeline is whitespace-free, contains no
case-insensitive occurrence of `www.`, `https://` or `http://`, and does
not end in strippable trailing punctuation. -/

theorem cleanDOI_props (x : List Char) :
    (∀ c ∈ cleanDOI x, isJsWs c = false) ∧
    containsCI "www.".data (cleanDOI x) = false ∧
    containsCI "https://".data (cleanDOI x) = false ∧
    containsCI "http://".data (cleanDOI x) = false ∧
    (∀ c, (cleanDOI x).getLast? = some c → trailPunct c = false) := by
  have hC : cleanDOI x = dropLeadPunct (dropTrailPunct (httpStrip (wwwStrip
      (((match urlDoiExtract (jsTrim x) with
        | some cap => cap
        | none => stripDoiColon (stripDoiOrgUrl (jsTrim x))).filter
          (fun c => !isJsWs c)))))) := rfl
  set n2 := ((match urlDoiExtract (jsTrim x) with
        | some cap => cap
        | none => stripDoiColon (stripDoiOrgUrl (jsTrim x))).filter
          (fun c => !isJsWs c)) with hn2
  have hWs2 : ∀ c ∈ n2, isJsWs c = false := by
    intro c hc
    rw [hn2] at hc
    have := (List.mem_filter.mp hc).2
    simpa using this
  have hWsW : ∀ c ∈ wwwStrip n2, isJsWs c = false := by
    rcases wwwStrip_decomp hWs2 with ⟨v, hv⟩
    intro c hc
    exact hWs2 c (by rw [hv]; exact List.mem_append_left _ hc)
  have hWs3 : ∀ c ∈ httpStrip (wwwStrip n2), isJsWs c = false := by
    rcases httpStrip_decomp hWsW with ⟨v, hv⟩
    intro c hc
    exact hWsW c (by rw [hv]; exact List.mem_append_left _ hc)
  have hWsT : ∀ c ∈ dropTrailPunct (httpStrip (wwwStrip n2)), isJsWs c = false := by
    rcases dropTrailPunct_decomp (httpStrip (wwwStrip n2)) with ⟨v, hv⟩
    intro c hc
    exact hWs3 c (by rw [hv]; exact List.mem_append_left _ hc)
  have hWsL : ∀ c ∈ cleanDOI x, isJsWs c = false := by
    rw [hC]
    rcases dropLeadPunct_decomp (dropTrailPunct (httpStrip (wwwStrip n2))) with ⟨u, hu⟩
    intro c hc
    exact hWsT c (by rw [hu]; exact List.mem_append_right _ hc)
  refine ⟨hWsL, ?_, ?_, ?_, ?_⟩
  · -- no www. in the final result
    have h1 : containsCI "www.".data (wwwStrip n2) = false := wwwStrip_no_www hWs2
    have h2 : containsCI "www.".data (httpStrip (wwwStrip n2)) = false := by
      rcases httpStrip_decomp hWsW with ⟨v, hv⟩
      exact containsCI_false_of_append_right (by rw [← hv]; exact h1)
    have h3 : containsCI "www.".data (dropTrailPunct (httpStrip (wwwStrip n2))) = false := by
      rcases dropTrailPunct_decomp (httpStrip (wwwStrip n2)) with ⟨v, hv⟩
      exact containsCI_false_of_append_right (by rw [← hv]; exact h2)
    rw [hC]
    rcases dropLeadPunct_decomp (dropTrailPunct (httpStrip (wwwStrip n2))) with ⟨u, hu⟩
    exact containsCI_false_of_append_left (by rw [← hu]; exact h3)
  · have h2 : containsCI "https://".data (httpStrip (wwwStrip n2)) = false :=
      httpStrip_no_pat _ (Or.inl rfl) hWsW
    have h3 : containsCI "https://".data (dropTrailPunct (httpStrip (wwwStrip n2))) = false := by
      rcases dropTrailPunct_decomp (httpStrip (wwwStrip n2)) with ⟨v, hv⟩
      exact containsCI_false_of_append_right (by rw [← hv]; exact h2)
    rw [hC]
    rcases dropLeadPunct_decomp (dropTrailPunct (httpStrip (wwwStrip n2))) with ⟨u, hu⟩
    exact containsCI_false_of_append_left (by rw [← hu]; exact h3)
  · have h2 : containsCI "http://".data (httpStrip (wwwStrip n2)) = false :=
      httpStrip_no_pat _ (Or.inr rfl) hWsW
    have h3 : containsCI "http://".data (dropTrailPunct (httpStrip (wwwStrip n2))) = false := by
      rcases dropTrailPunct_decomp (httpStrip (wwwStrip n2)) with ⟨v, hv⟩
      exact containsCI_false_of_append_right (by rw [← hv]; exact h2)
    rw [hC]
    rcases dropLeadPunct_decomp (dropTrailPunct (httpStrip (wwwStrip n2))) with ⟨u, hu⟩
    exact containsCI_false_of_append_left (by rw [← hu]; exact h3)
  · intro c hc
    rw [hC] at hc
    rcases dropLeadPunct_decomp (dropTrailPunct (httpStrip (wwwStrip n2))) with ⟨u, hu⟩
    apply dropTrailPunct_getLast (s := httpStrip (wwwStrip n2))
    rw [hu, List.getLast?_append, hc]
    rfl

theorem validDOIFormat_startsWith {l : List Char}
    (h : validDOIFormat l = true) : listStartsWith "10.".data l = true := by
  unfold validDOIFormat at h
  exact (Bool.and_eq_true_iff.mp h).1

/-! On an input that is already fully clean, the cleaning pipeline is the
identity. -/

theorem cleanDOI_eq_self {l : List Char}
    (hshape : listStartsWith "10.".data l = true)
    (hnoWs : ∀ c ∈ l, isJsWs c = false)
    (hurl : urlDoiExtract l = none)
    (hwww : containsCI "www.".data l = false)
    (hhttps : containsCI "https://".data l = false)
    (hhttp : containsCI "http://".data l = false)
    (hlast : ∀ c, l.getLast? = some c → trailPunct c = false) :
    cleanDOI l = l := by
  rcases listStartsWith_decomp hshape with ⟨t, ht⟩
  have ht' : l = '1' :: '0' :: '.' :: t := by rw [ht]; rfl
  have htrim : jsTrim l = l := noWs_of_trim hnoWs
  have hm : cleanDOI l = dropLeadPunct (dropTrailPunct (httpStrip (wwwStrip
      ((stripDoiColon (stripDoiOrgUrl l)).filter (fun c => !isJsWs c))))) := by
    simp only [cleanDOI, htrim, hurl]
  have h1 : stripDoiOrgUrl l = l := by rw [ht']; rfl
  have h2 : stripDoiColon l = l := by rw [ht']; rfl
  have h3 : l.filter (fun c => !isJsWs c) = l :=
    filter_eq_self_of_all (fun c hc => by rw [hnoWs c hc]; rfl)
  have h6 : dropTrailPunct l = l := dropTrailPunct_eq_self hlast
  have h7 : dropLeadPunct l = l := by rw [ht']; rfl
  rw [hm, h1, h2, h3, wwwStrip_eq_self hwww, httpStrip_eq_self hhttps hhttp, h6, h7]

theorem normalizeDOIList_self {l : List Char}
    (hval : validDOIFormat l = true) (hlen : 15 ≤ l.length)
    (hclean : cleanDOI l = l) : normalizeDOIList l = some l := by
  have hne : l ≠ [] := by
    intro he
    rw [he] at hlen
    simp at hlen
  unfold normalizeDOIList
  rw [if_neg hne, if_pos ⟨by rw [hclean]; exact hval, by rw [hclean]; exact hlen⟩, hclean]

theorem normalizeDOI_eq_some {s r : String} (h : normalizeDOI s = some r) :
    normalizeDOIList s.data = some r.data := by
  unfold normalizeDOI at h
  cases hc : normalizeDOIList s.data with
  | none => rw [hc] at h; simp at h
  | some l =>
    rw [hc] at h
    simp only [Option.map_some', Option.some.injEq] at h
    rw [← h]

theorem normalizeDOI_of_list {r : String}
    (h : normalizeDOIList r.data = some r.data) : normalizeDOI r = some r := by
  unfold normalizeDOI
  rw [h]
  rfl

/-! ### Claims about the DOI recognizer -/

/-- Claim C2: for every input string, `normalizeDOI` returns null (it is a
total function, so it never throws) unless the cleaned result matches the
validation pattern `10.`, 4-9 digits, slash, at least 5 further characters,
and has total length at least 15; in particular `normalizeDOI "10.1016/S1"`
returns null. -/
theorem c2_normalizeDOI_validates :
    (∀ (s r : String), normalizeDOI s = some r →
      validDOIFormat r.data = true ∧ 15 ≤ r.length) ∧
    normalizeDOI "10.1016/S1" = none := by
  constructor
  · intro s r h
    have hv := normalizeDOIList_valid (normalizeDOI_eq_some h)
    exact ⟨hv.1, hv.2⟩
  · rfl

/-- Witness for C2 at a concrete accepted input. -/
theorem c2_witness :
    validDOIFormat "10.1038/nphys1170".data = true ∧
    15 ≤ ("10.1038/nphys1170" : String).length :=
  c2_normalizeDOI_validates.1 "https://doi.org/10.1038/nphys1170"
    "10.1038/nphys1170" (by rfl)

/-- Counterexample to claim C3 as stated: `"10.1234/www.abcdefgh"` matches
the anchored DOI pattern, has length 20, contains no whitespace, no URL
prefix and no leading or trailing punctuation, yet `normalizeDOI` does not
return it unchanged: the `www.`-stripping step truncates it and the result
is rejected, yielding null. -/
theorem c3_counterexample :
    plainDOIShape "10.1234/www.abcdefgh" = true ∧
    normalizeDOI "10.1234/www.abcdefgh" = none :=
  ⟨rfl, rfl⟩

/-- Claim C3, amended: for every string d that matches `10.`, 4-9 digits,
slash, at least 5 further characters, with length at least 15, no
whitespace, no leading or trailing punctuation, AND no case-insensitive
occurrence of `www.`, `https://`, `http://`, `doi.org/` or `/doi/`
anywhere in the string, `normalizeDOI d = d`; in particular
`normalizeDOI "https://doi.org/10.1038/nphys1170" = "10.1038/nphys1170"`. -/
theorem c3_normalizeDOI_identity :
    (∀ d : String, plainDOIShape d = true →
      containsCI "www.".data d.data = false →
      containsCI "https://".data d.data = false →
      containsCI "http://".data d.data = false →
      containsCI "doi.org/".data d.data = false →
      containsCI "/doi/".data d.data = false →
      normalizeDOI d = some d) ∧
    normalizeDOI "https://doi.org/10.1038/nphys1170" = some "10.1038/nphys1170" := by
  constructor
  · intro d hshape hwww hhttps hhttp hdoiorg hslashdoi
    simp only [plainDOIShape, Bool.and_eq_true] at hshape
    obtain ⟨⟨⟨⟨hval, hlen⟩, hall⟩, _⟩, hend⟩ := hshape
    have hnoWs : ∀ c ∈ d.data, isJsWs c = false := by
      intro c hc
      have := List.all_eq_true.mp hall c hc
      simpa using this
    have hlast : ∀ c, d.data.getLast? = some c → trailPunct c = false := by
      intro c hc
      rw [hc] at hend
      simpa using hend
    have hclean := cleanDOI_eq_self (validDOIFormat_startsWith hval) hnoWs
      (urlDoiExtract_eq_none hdoiorg hslashdoi) hwww hhttps hhttp hlast
    exact normalizeDOI_of_list
      (normalizeDOIList_self hval (by exact_mod_cast decide_eq_true_iff.mp hlen) hclean)
  · rfl

/-- Witness for the amended C3 at a concrete clean DOI. -/
theorem c3_witness :
    plainDOIShape "10.1038/nphys1170" = true ∧
    normalizeDOI "10.1038/nphys1170" = some "10.1038/nphys1170" :=
  ⟨rfl, c3_normalizeDOI_identity.1 "10.1038/nphys1170" rfl rfl rfl rfl rfl rfl⟩

/-- Counterexample to claim C4 as stated: `normalizeDOI` maps the input
`"10.1234/xdoi. org/10.5678/abcdefgh"` to the non-null result
`"10.1234/xdoi.org/10.5678/abcdefgh"` (whitespace removal happens after
the URL-extraction step, so it can create a `doi.org/` trigger), but
applying `normalizeDOI` again extracts the embedded DOI and returns a
different string, so `normalizeDOI` is not idempotent on this result. -/
theorem c4_counterexample :
    normalizeDOI "10.1234/xdoi. org/10.5678/abcdefgh" =
      some "10.1234/xdoi.org/10.5678/abcdefgh" ∧
    normalizeDOI "10.1234/xdoi.org/10.5678/abcdefgh" = some "10.5678/abcdefgh" ∧
    ("10.5678/abcdefgh" : String) ≠ "10.1234/xdoi.org/10.5678/abcdefgh" :=
  ⟨rfl, rfl, by decide⟩

/-- Claim C4, amended: `normalizeDOI` is idempotent on every non-null
result in which the URL-embedded-DOI extraction regex finds no match (all
the other cleaning steps are provably no-ops on every result): if
`normalizeDOI x = some r` and the URL extraction finds nothing in `r`,
then `normalizeDOI r = some r`. -/
theorem c4_normalizeDOI_idempotent :
    ∀ (x r : String), normalizeDOI x = some r →
      urlDoiExtract r.data = none → normalizeDOI r = some r := by
  intro x r hx hurl
  have hl := normalizeDOI_eq_some hx
  have hval := (normalizeDOIList_valid hl).1
  have hlen := (normalizeDOIList_valid hl).2
  have hcl : cleanDOI x.data = r.data := normalizeDOIList_eq_clean hl
  obtain ⟨hWs, hwww, hhttps, hhttp, hlast⟩ := cleanDOI_props x.data
  rw [hcl] at hWs hwww hhttps hhttp hlast
  have hclean := cleanDOI_eq_self (validDOIFormat_startsWith hval) hWs hurl
    hwww hhttps hhttp hlast
  exact normalizeDOI_of_list (normalizeDOIList_self hval hlen hclean)

/-- Witness for the amended C4 at a concrete input. -/
theorem c4_witness : normalizeDOI "10.1038/nphys1170" = some "10.1038/nphys1170" :=
  c4_normalizeDOI_idempotent "https://doi.org/10.1038/nphys1170"
    "10.1038/nphys1170" (by rfl) (by rfl)

/-! ### Claims about `detectDOIsFromText` -/

theorem pass1Step_nodup {acc : List (List Char)} {m : List Char}
    (h : acc.Nodup) : (pass1Step acc m).Nodup := by
  unfold pass1Step
  cases normalizeDOIList m with
  | none => exact h
  | some d =>
    dsimp only
    split
    · exact h
    · rename_i hd
      refine List.Nodup.append h (List.nodup_singleton d) ?_
      intro a ha hb
      rw [List.mem_singleton] at hb
      subst hb
      exact hd ha

theorem pass2Step_nodup {acc : List (List Char)} {m : List Char}
    (h : acc.Nodup) : (pass2Step acc m).Nodup := by
  unfold pass2Step
  cases normalizeDOIList m with
  | none => exact h
  | some d =>
    dsimp only
    split
    · exact h
    · rename_i hd
      refine List.Nodup.append h (List.nodup_singleton d) ?_
      intro a ha hb
      rw [List.mem_singleton] at hb
      subst hb
      exact hd (List.any_eq_true.mpr ⟨a, ha, by simp⟩)

theorem foldl_preserves_nodup {α β : Type} (step : List α → β → List α)
    (hstep : ∀ acc m, acc.Nodup → (step acc m).Nodup) :
    ∀ (ms : List β) (acc : List α), acc.Nodup → (ms.foldl step acc).Nodup
  | [], _, h => h
  | m :: ms, acc, h =>
    foldl_preserves_nodup step hstep ms (step acc m) (hstep acc m h)

theorem pass1Step_cases (acc : List (List Char)) (m : List Char) :
    pass1Step acc m = acc ∨
    ∃ d, normalizeDOIList m = some d ∧ pass1Step acc m = acc ++ [d] := by
  unfold pass1Step
  cases h : normalizeDOIList m with
  | none => exact Or.inl rfl
  | some d =>
    dsimp only
    split
    · exact Or.inl rfl
    · exact Or.inr ⟨d, rfl, rfl⟩

theorem pass2Step_cases (acc : List (List Char)) (m : List Char) :
    pass2Step acc m = acc ∨
    ∃ d, normalizeDOIList m = some d ∧ pass2Step acc m = acc ++ [d] := by
  unfold pass2Step
  cases h : normalizeDOIList m with
  | none => exact Or.inl rfl
  | some d =>
    dsimp only
    split
    · exact Or.inl rfl
    · exact Or.inr ⟨d, rfl, rfl⟩

/-- Both push steps only ever append, so a fold over them extends its
accumulator with an order-preserving subsequence of the successfully
normalized matches. -/
theorem foldl_push_decomp (step : List (List Char) → List Char → List (List Char))
    (hstep : ∀ acc m, step acc m = acc ∨
      ∃ d, normalizeDOIList m = some d ∧ step acc m = acc ++ [d]) :
    ∀ (ms : List (List Char)) (acc : List (List Char)),
      ∃ tail, ms.foldl step acc = acc ++ tail ∧
        List.Sublist tail (ms.filterMap normalizeDOIList) := by
  intro ms
  induction ms with
  | nil => exact fun acc => ⟨[], by simp, List.nil_sublist _⟩
  | cons m ms ih =>
    intro acc
    rcases hstep acc m with h | ⟨d, hd, h⟩
    · rcases ih (step acc m) with ⟨tail, h1, h2⟩
      refine ⟨tail, by rw [List.foldl_cons, h1, h], ?_⟩
      cases hnm : normalizeDOIList m with
      | none =>
        rw [List.filterMap_cons_none hnm]
        exact h2
      | some e =>
        rw [List.filterMap_cons_some hnm]
        exact h2.cons e
    · rcases ih (step acc m) with ⟨tail, h1, h2⟩
      refine ⟨d :: tail, ?_, ?_⟩
      · rw [List.foldl_cons, h1, h, List.append_assoc]
        rfl
      · rw [List.filterMap_cons_some hd]
        exact h2.cons₂ d

/-- Counterexample to claim C5 as stated: on the input
`"10.1000/ABCDEFG 10.1000/abcdefg"` the returned list contains two
elements that are equal up to case but not equal (the strict first pass
de-duplicates only case-sensitively), so the list is not case-insensitively
de-duplicated. -/
theorem c5_counterexample :
    detectDOIsFromText "10.1000/ABCDEFG 10.1000/abcdefg" =
      ["10.1000/ABCDEFG", "10.1000/abcdefg", "10.1000/ABCDEFG10.1000/abcdefg"] ∧
    "10.1000/ABCDEFG".data.map Char.toLower = "10.1000/abcdefg".data.map Char.toLower ∧
    ("10.1000/ABCDEFG" : String) ≠ "10.1000/abcdefg" :=
  ⟨rfl, rfl, by decide⟩

/-- Claim C5, amended: the list returned by `detectDOIsFromText` never
contains two equal elements (the strict pass de-duplicates exactly; only
the aggressive second pass checks case-insensitively against the list);
it preserves first-seen order, in the sense that it is an order-preserving
subsequence of the stream of successfully normalized matches, strict pass
first, then aggressive pass; and on the input
`"See DOI 10.1000/xyz123 and 10.1000/xyz123 again"` it returns a
single-element array (whose element is the whitespace-stripped aggressive
match spanning the whole tail, since each bare `10.1000/xyz123` is 14
characters long and rejected by the length floor of `normalizeDOI`). -/
theorem c5_detect_ordered_dedup :
    (∀ t : String, (detectDOIsFromText t).Nodup) ∧
    (∀ t : String, List.Sublist (detectDOIsFromText t) (doiCandidates t)) ∧
    detectDOIsFromText "See DOI 10.1000/xyz123 and 10.1000/xyz123 again" =
      ["10.1000/xyz123and10.1000/xyz123again"] := by
  refine ⟨?_, ?_, rfl⟩
  · intro t
    unfold detectDOIsFromText
    apply List.Nodup.map
    · intro a b hab
      exact congrArg String.data hab
    · show ((aggScan (t.data.length + 1) t.data).foldl pass2Step
        ((strictScan (t.data.length + 1) false t.data).foldl pass1Step [])).Nodup
      apply foldl_preserves_nodup _ (fun _ _ => pass2Step_nodup)
      apply foldl_preserves_nodup _ (fun _ _ => pass1Step_nodup)
      exact List.nodup_nil
  · intro t
    unfold detectDOIsFromText doiCandidates
    refine List.Sublist.map String.mk ?_
    show List.Sublist
      ((aggScan (t.data.length + 1) t.data).foldl pass2Step
        ((strictScan (t.data.length + 1) false t.data).foldl pass1Step []))
      (doiCandidatesList t.data)
    rcases foldl_push_decomp pass1Step pass1Step_cases
      (strictScan (t.data.length + 1) false t.data) [] with ⟨t1, e1, s1⟩
    rcases foldl_push_decomp pass2Step pass2Step_cases
      (aggScan (t.data.length + 1) t.data)
      ((strictScan (t.data.length + 1) false t.data).foldl pass1Step []) with ⟨t2, e2, s2⟩
    rw [e2, e1]
    unfold doiCandidatesList
    simp only [List.nil_append]
    exact List.Sublist.append s1 s2

/-! ### Claims about the formatters -/

/-- Claim C1: the APA scenario.  For the metadata record with author
Doe/Jane, title "A Study", journal "Nature", year 2021, volume 590, pages
123-130 and the given DOI, `formatReferenceAPA` returns exactly the
expected reference string. -/
theorem c1_formatReferenceAPA_scenario :
    formatReferenceAPA ⟨"10.1038/s41586-021-00001-0", "A Study", [⟨"Jane", "Doe", ""⟩],
      "2021", "Nature", "590", "", "123-130", "", "", "", false⟩ =
    "Doe, J. (2021). A study. <em>Nature</em>, <em>590</em>, 123-130. https://doi.org/10.1038/s41586-021-00001-0" :=
  rfl

/-- Claim C6: `formatAuthorsAPA` joins exactly 2 authors with an
ampersand; 3 to 20 authors are joined with commas and a final ampersand
before the last; more than 20 authors yield the first 19 joined by commas,
an ellipsis separator, then the last author with no ampersand. -/
theorem c6_formatAuthorsAPA_truncation :
    (∀ a b : Author, formatAuthorsAPA [a, b] =
      formatAuthorAPA1 a ++ ", & " ++ formatAuthorAPA1 b) ∧
    (∀ (xs : List Author) (x : Author), 2 ≤ xs.length → xs.length ≤ 19 →
      formatAuthorsAPA (xs ++ [x]) =
        joinSep ", " (xs.map formatAuthorAPA1) ++ ", & " ++ formatAuthorAPA1 x) ∧
    (∀ (xs : List Author) (x : Author), 20 ≤ xs.length →
      formatAuthorsAPA (xs ++ [x]) =
        joinSep ", " (((xs ++ [x]).take 19).map formatAuthorAPA1) ++ ", ... " ++
          formatAuthorAPA1 x) := by
  refine ⟨fun a b => rfl, ?_, ?_⟩
  · intro xs x h2 h19
    have hlen : (xs ++ [x]).length = xs.length + 1 := by simp
    unfold formatAuthorsAPA
    rw [if_neg (by rw [hlen]; omega), if_neg (by rw [hlen]; omega),
        if_neg (by rw [hlen]; omega), if_pos (by rw [hlen]; omega)]
    rw [hlen]
    simp only [List.map_append, List.map_cons, List.map_nil, List.dropLast_concat,
      Nat.add_sub_cancel]
    rw [List.getD_append_right _ _ _ _ (by simp)]
    simp
  · intro xs x h20
    have hlen : (xs ++ [x]).length = xs.length + 1 := by simp
    unfold formatAuthorsAPA
    rw [if_neg (by rw [hlen]; omega), if_neg (by rw [hlen]; omega),
        if_neg (by rw [hlen]; omega), if_neg (by rw [hlen]; omega)]
    have hx : jsAt (xs ++ [x]) ((xs ++ [x]).length - 1) = x := by
      unfold jsAt
      rw [hlen, Nat.add_sub_cancel,
          List.getD_append_right _ _ _ _ (Nat.le_refl _), Nat.sub_self]
      rfl
    rw [hx]

/-- Witness for C6: the 3-to-20 rule at 3 authors and the truncation rule
at 22 authors. -/
theorem c6_witness :
    formatAuthorsAPA (List.replicate 2 (⟨"", "A", ""⟩ : Author) ++ [(⟨"", "B", ""⟩ : Author)]) =
      joinSep ", " ((List.replicate 2 (⟨"", "A", ""⟩ : Author)).map formatAuthorAPA1) ++
        ", & " ++ formatAuthorAPA1 (⟨"", "B", ""⟩ : Author) ∧
    formatAuthorsAPA (List.replicate 21 (⟨"", "A", ""⟩ : Author) ++ [(⟨"", "B", ""⟩ : Author)]) =
      joinSep ", " (((List.replicate 21 (⟨"", "A", ""⟩ : Author) ++ [(⟨"", "B", ""⟩ : Author)]).take 19).map
        formatAuthorAPA1) ++ ", ... " ++ formatAuthorAPA1 (⟨"", "B", ""⟩ : Author) :=
  ⟨c6_formatAuthorsAPA_truncation.2.1 _ _ (by simp) (by simp),
   c6_formatAuthorsAPA_truncation.2.2 _ _ (by simp)⟩

/-- Claim C9: every style's author formatter returns the fallback string
for an empty author list (and, being a total function, does not throw). -/
theorem c9_empty_authors_fallback :
    formatAuthorsAPA [] = "[No author]" ∧ formatAuthorsMLA [] = "[No author]" ∧
    formatAuthorsChicago [] = "[No author]" ∧ formatAuthorsIEEE [] = "[No author]" ∧
    formatAuthorsVancouver [] = "[No author]" :=
  ⟨rfl, rfl, rfl, rfl, rfl⟩

/-- Claim C10: for each of the styles mla, chicago, vancouver and ieee,
the generic dispatcher `formatInText` returns exactly the APA in-text
citation: the switch handles only the apa case and every other style falls
through to the APA default. -/
theorem c10_formatInText_defaults_to_APA :
    ∀ s : Style, s ∈ [Style.mla, Style.chicago, Style.vancouver, Style.ieee] →
    ∀ (authors : List Author) (year : String) (variant : InTextVariant),
      formatInText s authors year variant = formatInTextAPA authors year variant := by
  intro s _ a y v
  cases s <;> rfl

/-- Witness for C10 at the mla style. -/
theorem c10_witness :
    formatInText Style.mla [⟨"Jane", "Doe", ""⟩] "2020" InTextVariant.parenthetical =
      formatInTextAPA [⟨"Jane", "Doe", ""⟩] "2020" InTextVariant.parenthetical :=
  c10_formatInText_defaults_to_APA Style.mla (by decide) _ _ _

/-! ### Substring lemmas for the joined reference parts -/

theorem listStartsWith_refl (l : List Char) : listStartsWith l l = true := by
  have h := listStartsWith_append_self l []
  rwa [List.append_nil] at h

theorem joinSep_cons2_startsWith (a b : String) (L : List String) :
    listStartsWith a.data (joinSep " " (a :: b :: L)).data = true := by
  show listStartsWith a.data (a ++ " " ++ joinSep " " (b :: L)).data = true
  rw [data_append, data_append, List.append_assoc]
  exact listStartsWith_append_self _ _

theorem mem_joinSep_contains {pat : List Char} {parts : List String} {p : String}
    (hp : p ∈ parts) (h : containsStr pat p.data = true) :
    containsStr pat (joinSep " " parts).data = true := by
  induction parts with
  | nil => simp at hp
  | cons q rest ih =>
    rcases List.mem_cons.mp hp with hq | hq
    · subst hq
      cases rest with
      | nil => exact h
      | cons r rs =>
        show containsStr pat (p ++ " " ++ joinSep " " (r :: rs)).data = true
        rw [data_append, data_append]
        exact containsStr_append_right (containsStr_append_right h)
    · cases rest with
      | nil => simp at hq
      | cons r rs =>
        show containsStr pat (q ++ " " ++ joinSep " " (r :: rs)).data = true
        rw [data_append]
        exact containsStr_append_left (ih hq)

/-- Claim C8: for every metadata record with a nonempty doi, the output of
each of the five styles' reference formatters contains verbatim either the
substring `https://doi.org/<doi>` or the substring `doi: <doi>`. -/
theorem c8_doi_in_every_style :
    ∀ (meta : CitationMetadata) (n1 n2 : Nat), meta.doi ≠ "" →
      (containsStr ("https://doi.org/" ++ meta.doi).data (formatReferenceAPA meta).data = true ∨
       containsStr ("doi: " ++ meta.doi).data (formatReferenceAPA meta).data = true) ∧
      (containsStr ("https://doi.org/" ++ meta.doi).data (formatReferenceMLA meta).data = true ∨
       containsStr ("doi: " ++ meta.doi).data (formatReferenceMLA meta).data = true) ∧
      (containsStr ("https://doi.org/" ++ meta.doi).data (formatReferenceChicago meta).data = true ∨
       containsStr ("doi: " ++ meta.doi).data (formatReferenceChicago meta).data = true) ∧
      (containsStr ("https://doi.org/" ++ meta.doi).data (formatReferenceIEEE meta n1).data = true ∨
       containsStr ("doi: " ++ meta.doi).data (formatReferenceIEEE meta n1).data = true) ∧
      (containsStr ("https://doi.org/" ++ meta.doi).data (formatReferenceVancouver meta n2).data = true ∨
       containsStr ("doi: " ++ meta.doi).data (formatReferenceVancouver meta n2).data = true) := by
  intro meta n1 n2 hdoi
  refine ⟨Or.inl ?_, Or.inl ?_, Or.inl ?_, Or.inr ?_, Or.inr ?_⟩
  · simp only [formatReferenceAPA]
    exact mem_joinSep_contains (p := "https://doi.org/" ++ meta.doi)
      (by simp [hdoi]) (containsStr_of_startsWith (listStartsWith_refl _))
  · simp only [formatReferenceMLA]
    refine mem_joinSep_contains (p := "https://doi.org/" ++ meta.doi ++ ".")
      (by simp [hdoi]) (containsStr_of_startsWith ?_)
    rw [data_append ("https://doi.org/" ++ meta.doi) "."]
    exact listStartsWith_append_self _ _
  · simp only [formatReferenceChicago]
    refine mem_joinSep_contains (p := "https://doi.org/" ++ meta.doi ++ ".")
      (by simp [hdoi]) (containsStr_of_startsWith ?_)
    rw [data_append ("https://doi.org/" ++ meta.doi) "."]
    exact listStartsWith_append_self _ _
  · simp only [formatReferenceIEEE]
    refine mem_joinSep_contains (p := "doi: " ++ meta.doi ++ ".")
      (by simp [hdoi]) (containsStr_of_startsWith ?_)
    rw [data_append ("doi: " ++ meta.doi) "."]
    exact listStartsWith_append_self _ _
  · simp only [formatReferenceVancouver]
    exact mem_joinSep_contains (p := "doi: " ++ meta.doi)
      (by simp [hdoi]) (containsStr_of_startsWith (listStartsWith_refl _))

/-- Witness for C8 at a concrete record and reference numbers. -/
theorem c8_witness :
    (containsStr ("https://doi.org/" ++ "10.1/abcde").data
      (formatReferenceAPA ⟨"10.1/abcde", "T", [], "", "", "", "", "", "", "", "", false⟩).data = true ∨
     containsStr ("doi: " ++ "10.1/abcde").data
      (formatReferenceAPA ⟨"10.1/abcde", "T", [], "", "", "", "", "", "", "", "", false⟩).data = true) ∧
    (containsStr ("https://doi.org/" ++ "10.1/abcde").data
      (formatReferenceMLA ⟨"10.1/abcde", "T", [], "", "", "", "", "", "", "", "", false⟩).data = true ∨
     containsStr ("doi: " ++ "10.1/abcde").data
      (formatReferenceMLA ⟨"10.1/abcde", "T", [], "", "", "", "", "", "", "", "", false⟩).data = true) ∧
    (containsStr ("https://doi.org/" ++ "10.1/abcde").data
      (formatReferenceChicago ⟨"10.1/abcde", "T", [], "", "", "", "", "", "", "", "", false⟩).data = true ∨
     containsStr ("doi: " ++ "10.1/abcde").data
      (formatReferenceChicago ⟨"10.1/abcde", "T", [], "", "", "", "", "", "", "", "", false⟩).data = true) ∧
    (containsStr ("https://doi.org/" ++ "10.1/abcde").data
      (formatReferenceIEEE ⟨"10.1/abcde", "T", [], "", "", "", "", "", "", "", "", false⟩ 3).data = true ∨
     containsStr ("doi: " ++ "10.1/abcde").data
      (formatReferenceIEEE ⟨"10.1/abcde", "T", [], "", "", "", "", "", "", "", "", false⟩ 3).data = true) ∧
    (containsStr ("https://doi.org/" ++ "10.1/abcde").data
      (formatReferenceVancouver ⟨"10.1/abcde", "T", [], "", "", "", "", "", "", "", "", false⟩ 1).data = true ∨
     containsStr ("doi: " ++ "10.1/abcde").data
      (formatReferenceVancouver ⟨"10.1/abcde", "T", [], "", "", "", "", "", "", "", "", false⟩ 1).data = true) :=
  c8_doi_in_every_style ⟨"10.1/abcde", "T", [], "", "", "", "", "", "", "", "", false⟩
    3 1 (by decide)

/-- Counterexample to claim C7 as stated: for the one-author edited
record, the APA reference does NOT begin with `Doe, J. (Ed.).`; the slice
that inserts the editor label before the trailing period of the author
block removes the period of the initial, so the reference begins with
`Doe, J (Ed.).` instead. -/
theorem c7_counterexample :
    listStartsWith "Doe, J. (Ed.).".data
      (formatReferenceAPA ⟨"10.1038/s41586-021-00001-0", "A Study", [⟨"Jane", "Doe", ""⟩],
        "2021", "Nature", "590", "", "123-130", "", "", "", true⟩).data = false ∧
    listStartsWith "Doe, J (Ed.).".data
      (formatReferenceAPA ⟨"10.1038/s41586-021-00001-0", "A Study", [⟨"Jane", "Doe", ""⟩],
        "2021", "Nature", "590", "", "123-130", "", "", "", true⟩).data = true :=
  ⟨rfl, rfl⟩

/-- Claim C7, amended: when `isEditedWork` is true, `formatReferenceAPA`
inserts the editor label ` (Ed.).` (one author) or ` (Eds.).` (more than
one author) before the trailing period of the formatted author block, not
after it — the block's final character is dropped and replaced by the
label, which carries its own final period — so for the one author Doe/Jane
the reference begins with the author block `Doe, J (Ed.).` (the period of
the initial, which is the block's trailing period, is consumed by the
insertion). -/
theorem c7_editor_label_before_period :
    (∀ meta : CitationMetadata, meta.isEditedWork = true →
      meta.authors.length = 1 →
      (formatAuthorsAPA meta.authors).data.getLast? = some '.' →
      listStartsWith ((formatAuthorsAPA meta.authors).data.dropLast ++ " (Ed.).".data)
        (formatReferenceAPA meta).data = true) ∧
    (∀ meta : CitationMetadata, meta.isEditedWork = true →
      2 ≤ meta.authors.length →
      (formatAuthorsAPA meta.authors).data.getLast? = some '.' →
      listStartsWith ((formatAuthorsAPA meta.authors).data.dropLast ++ " (Eds.).".data)
        (formatReferenceAPA meta).data = true) ∧
    listStartsWith "Doe, J (Ed.).".data
      (formatReferenceAPA ⟨"", "A Study", [⟨"Jane", "Doe", ""⟩],
        "", "", "", "", "", "", "", "", true⟩).data = true := by
  refine ⟨?_, ?_, rfl⟩
  · intro meta hed hone hdot
    have hdot' : jsEndsWithDot (formatAuthorsAPA meta.authors) = true := by
      unfold jsEndsWithDot
      rw [hdot]
      rfl
    simp only [formatReferenceAPA, hed, hone, hdot', if_true]
    have h := joinSep_cons2_startsWith
      (String.mk (formatAuthorsAPA meta.authors).data.dropLast ++ " (Ed.).")
      (if meta.year ≠ "" then "(" ++ meta.year ++ ")." else "(n.d.).")
      ((if meta.containerType = "book" then
          ["<em>" ++ addDotIfNeeded (toSentenceCase meta.title) ++ "</em>"] ++
          (if meta.publisher ≠ "" then [meta.publisher ++ "."] else [])
        else
          [addDotIfNeeded (toSentenceCase meta.title)] ++
          (if meta.journal ≠ "" then
            ["<em>" ++ toTitleCase meta.journal ++ "</em>" ++
             (if meta.volume ≠ "" then ", <em>" ++ meta.volume ++ "</em>" else "") ++
             (if meta.issue ≠ "" then "(" ++ meta.issue ++ ")" else "") ++
             (if meta.pages ≠ "" then ", " ++ meta.pages else "") ++ "."]
           else [])) ++
       (if meta.doi ≠ "" then ["https://doi.org/" ++ meta.doi]
        else if meta.url ≠ "" then [meta.url] else []))
    rw [data_append] at h
    exact h
  · intro meta hed htwo hdot
    have hne1 : ¬(meta.authors.length = 1) := by omega
    have hdot' : jsEndsWithDot (formatAuthorsAPA meta.authors) = true := by
      unfold jsEndsWithDot
      rw [hdot]
      rfl
    simp only [formatReferenceAPA, hed, hdot', if_true]
    rw [if_neg hne1]
    have h := joinSep_cons2_startsWith
      (String.mk (formatAuthorsAPA meta.authors).data.dropLast ++ " (Eds.).")
      (if meta.year ≠ "" then "(" ++ meta.year ++ ")." else "(n.d.).")
      ((if meta.containerType = "book" then
          ["<em>" ++ addDotIfNeeded (toSentenceCase meta.title) ++ "</em>"] ++
          (if meta.publisher ≠ "" then [meta.publisher ++ "."] else [])
        else
          [addDotIfNeeded (toSentenceCase meta.title)] ++
          (if meta.journal ≠ "" then
            ["<em>" ++ toTitleCase meta.journal ++ "</em>" ++
             (if meta.volume ≠ "" then ", <em>" ++ meta.volume ++ "</em>" else "") ++
             (if meta.issue ≠ "" then "(" ++ meta.issue ++ ")" else "") ++
             (if meta.pages ≠ "" then ", " ++ meta.pages else "") ++ "."]
           else [])) ++
       (if meta.doi ≠ "" then ["https://doi.org/" ++ meta.doi]
        else if meta.url ≠ "" then [meta.url] else []))
    rw [data_append] at h
    exact h

/-- Witness for the amended C7: the one-author rule at the Doe record and
the multi-author rule at a two-author record (whose author block ends with
the initial's period). -/
theorem c7_witness :
    listStartsWith ((formatAuthorsAPA [(⟨"Jane", "Doe", ""⟩ : Author)]).data.dropLast ++
        " (Ed.).".data)
      (formatReferenceAPA ⟨"10.1038/s41586-021-00001-0", "A Study", [⟨"Jane", "Doe", ""⟩],
        "2021", "Nature", "590", "", "123-130", "", "", "", true⟩).data = true ∧
    listStartsWith ((formatAuthorsAPA
        [(⟨"Jane", "Doe", ""⟩ : Author), (⟨"Ann", "Lee", ""⟩ : Author)]).data.dropLast ++
        " (Eds.).".data)
      (formatReferenceAPA ⟨"10.1038/s41586-021-00001-0", "A Study",
        [⟨"Jane", "Doe", ""⟩, ⟨"Ann", "Lee", ""⟩],
        "2021", "Nature", "590", "", "123-130", "", "", "", true⟩).data = true :=
  ⟨c7_editor_label_before_period.1
    ⟨"10.1038/s41586-021-00001-0", "A Study", [⟨"Jane", "Doe", ""⟩],
      "2021", "Nature", "590", "", "123-130", "", "", "", true⟩ rfl rfl rfl,
   c7_editor_label_before_period.2.1
    ⟨"10.1038/s41586-021-00001-0", "A Study", [⟨"Jane", "Doe", ""⟩, ⟨"Ann", "Lee", ""⟩],
      "2021", "Nature", "590", "", "123-130", "", "", "", true⟩ rfl (by simp) rfl⟩

end FlowRef
